import Mathlib

/-!
Shallow embedding, over exact rationals, of the two-player zero-sum game
solver of the football-game-theory repository: the Simplex tableau engine
(src/solver/simplex.rs), the game solver with its positivity shift,
column-player LP and row-player indifference system (src/solver/game.rs),
and the epsilon-Nash verifier (src/solver/nash.rs).  Machine floats are
modelled by ℚ; the source's literal thresholds 1e-9, 1e-10, 1e-12 become
the exact rationals 10⁻⁹, 10⁻¹⁰, 10⁻¹².  Fallible operations return
Except / Option; out-of-bounds indexing in the verifier is modelled by
Option-valued access.
-/

namespace FGT

/-- Threshold 1e-9 used for active-column detection in game.rs. -/
def eps9 : ℚ := 1 / 10 ^ 9

/-- Threshold 1e-10 used by the simplex ratio test and basic-variable scan. -/
def eps10 : ℚ := 1 / 10 ^ 10

/-- Threshold 1e-12 used by the Gaussian-elimination pivot test. -/
def eps12 : ℚ := 1 / 10 ^ 12

/-- In-bounds list access; the algorithms only use it at in-range indices. -/
def getQ (l : List ℚ) (i : Nat) : ℚ := l.getD i 0

/-- Row access in a matrix represented as a list of rows. -/
def getRow (t : List (List ℚ)) (i : Nat) : List ℚ := t.getD i []

/-- Error kinds of simplex.rs. -/
inductive SimplexError
  | unbounded
  | infeasible
  | invalidDimensions
  | maxIterations
deriving DecidableEq, Repr

/-- The simplex solver state: tableau plus problem dimensions (simplex.rs). -/
structure Simplex where
  tableau : List (List ℚ)
  num_vars : Nat
  num_constraints : Nat
  max_iters : Nat
deriving DecidableEq, Repr

/-- `Simplex::new`: dimension checks and initial tableau construction. -/
def Simplex.new (c : List ℚ) (a : List (List ℚ)) (b : List ℚ) :
    Except SimplexError Simplex :=
  let num_vars := c.length
  let num_constraints := a.length
  if b.length ≠ num_constraints then .error .invalidDimensions
  else if a.any (fun row => row.length ≠ num_vars) then .error .invalidDimensions
  else
    let total_cols := num_vars + num_constraints + 1
    let tableau :=
      (List.range num_constraints).map (fun i =>
        (List.range total_cols).map (fun j =>
          if j < num_vars then getQ (getRow a i) j
          else if j = num_vars + i then 1
          else if j = total_cols - 1 then getQ b i
          else 0))
      ++ [(List.range total_cols).map (fun j =>
            if j < num_vars then -(getQ c j) else 0)]
    .ok ⟨tableau, num_vars, num_constraints, 1000⟩

/-- `Simplex::find_pivot_column`: most negative objective-row entry,
ties broken by first occurrence. -/
def Simplex.find_pivot_column (s : Simplex) : Option Nat :=
  let obj_row := getRow s.tableau s.num_constraints
  let num_cols := obj_row.length - 1
  ((List.range num_cols).foldl (fun st j =>
    if getQ obj_row j < st.1 then (getQ obj_row j, some j) else st)
    ((0 : ℚ), (none : Option Nat))).2

/-- One step of the ratio-test scan of `Simplex::find_pivot_row`; the state
holds the current minimum ratio and its row (None encodes min ratio +∞). -/
def fprStep (s : Simplex) (pivot_col rhs_col : Nat)
    (st : Option (ℚ × Nat)) (i : Nat) : Option (ℚ × Nat) :=
  let coeff := getQ (getRow s.tableau i) pivot_col
  if eps10 < coeff then
    let ratio := getQ (getRow s.tableau i) rhs_col / coeff
    match st with
    | none => if 0 ≤ ratio then some (ratio, i) else none
    | some (mr, r) => if 0 ≤ ratio ∧ ratio < mr then some (ratio, i) else some (mr, r)
  else st

/-- `Simplex::find_pivot_row`: minimum-ratio test over constraint rows with
pivot-column entry above 1e-10 and non-negative ratio. -/
def Simplex.find_pivot_row (s : Simplex) (pivot_col : Nat) : Option Nat :=
  let rhs_col := (getRow s.tableau 0).length - 1
  (((List.range s.num_constraints).foldl (fprStep s pivot_col rhs_col) none).map
    Prod.snd)

/-- `Simplex::pivot`: normalize the pivot row, then eliminate the pivot
column from every other row. -/
def Simplex.pivot (s : Simplex) (pivot_row pivot_col : Nat) : Simplex :=
  let pv := getQ (getRow s.tableau pivot_row) pivot_col
  let newPivotRow := (getRow s.tableau pivot_row).map (fun x => x / pv)
  let num_rows := s.tableau.length
  let t := (List.range num_rows).map (fun i =>
    if i = pivot_row then newPivotRow
    else
      let factor := getQ (getRow s.tableau i) pivot_col
      (getRow s.tableau i).zipWith (fun x pj => x - factor * pj) newPivotRow)
  { s with tableau := t }

/-- The basic-variable scan of `Simplex::extract_solution` for one column:
returns the row where the column is basic, None otherwise. -/
def basicScan (s : Simplex) (j : Nat) : Nat → Nat → Option Nat → Option Nat
  | 0, _, br => br
  | fuel+1, i, br =>
    let val := getQ (getRow s.tableau i) j
    if |val - 1| < eps10 then
      match br with
      | some _ => none
      | none => basicScan s j fuel (i+1) (some i)
    else if eps10 < |val| then none
    else basicScan s j fuel (i+1) br

/-- `Simplex::extract_solution`: basic variables read from the RHS column,
optimal value from the bottom-right cell. -/
def Simplex.extract_solution (s : Simplex) : ℚ × List ℚ :=
  let rhs_col := (getRow s.tableau 0).length - 1
  let solution := (List.range s.num_vars).map (fun j =>
    match basicScan s j (s.num_constraints + 1) 0 none with
    | some row => if row < s.num_constraints then getQ (getRow s.tableau row) rhs_col else 0
    | none => 0)
  (getQ (getRow s.tableau s.num_constraints) rhs_col, solution)

/-- The iteration loop of `Simplex::solve`, with the iteration budget as fuel. -/
def Simplex.solveLoop : Nat → Simplex → Except SimplexError (ℚ × List ℚ)
  | 0, _ => .error .maxIterations
  | fuel+1, sd =>
    match sd.find_pivot_column with
    | none => .ok sd.extract_solution
    | some pc =>
      match sd.find_pivot_row pc with
      | none => .error .unbounded
      | some pr => Simplex.solveLoop fuel (sd.pivot pr pc)

/-- `Simplex::solve`: run the pivot loop up to `max_iterations` times. -/
def Simplex.solve (s : Simplex) : Except SimplexError (ℚ × List ℚ) :=
  Simplex.solveLoop s.max_iters s

/-- Error kinds of game.rs. -/
inductive GameError
  | emptyMatrix
  | inconsistentRows
  | solverError (e : SimplexError)
deriving DecidableEq, Repr

deriving instance DecidableEq for Except

/-- The result triple of `GameSolver::solve` (game.rs). -/
structure GameSolution where
  row_strategy : List ℚ
  col_strategy : List ℚ
  game_value : Option ℚ
deriving DecidableEq, Repr

/-- The game solver state (game.rs). -/
structure GameSolver where
  payoff_matrix : List (List ℚ)
  num_rows : Nat
  num_cols : Nat
deriving DecidableEq, Repr

/-- `GameSolver::new`: reject empty matrices and inconsistent row lengths. -/
def GameSolver.new (payoff_matrix : List (List ℚ)) : Except GameError GameSolver :=
  match payoff_matrix with
  | [] => .error .emptyMatrix
  | r0 :: _ =>
    let num_rows := payoff_matrix.length
    let num_cols := r0.length
    if num_cols = 0 then .error .emptyMatrix
    else if payoff_matrix.any (fun row => row.length ≠ num_cols) then
      .error .inconsistentRows
    else .ok ⟨payoff_matrix, num_rows, num_cols⟩

/-- The fold step modelling `f64::min` with an f64-INFINITY initial
accumulator: None encodes +∞. -/
def minQ (acc : Option ℚ) (x : ℚ) : Option ℚ :=
  match acc with
  | none => some x
  | some a => some (min a x)

/-- The minimum entry of the payoff matrix, folded exactly as the
`flat_map`/`fold(INFINITY, min)` of `GameSolver::calculate_shift`. -/
def GameSolver.min_entry (g : GameSolver) : Option ℚ :=
  g.payoff_matrix.foldl (fun acc row => row.foldl minQ acc) none

/-- `GameSolver::calculate_shift`: `1 - min` when the minimum entry is
non-positive, otherwise 0. -/
def GameSolver.calculate_shift (g : GameSolver) : ℚ :=
  match g.min_entry with
  | some m => if m ≤ 0 then -m + 1 else 0
  | none => 0

/-- `GameSolver::shift_matrix`: add the shift to every entry. -/
def GameSolver.shift_matrix (g : GameSolver) (shift : ℚ) : List (List ℚ) :=
  g.payoff_matrix.map (fun row => row.map (fun v => v + shift))

/-- `GameSolver::solve_col_player_internal`: the column player's LP
`max Σ z` s.t. `A z ≤ 1`, returning the raw simplex solution. -/
def GameSolver.solve_col_player_internal (g : GameSolver) (matrix : List (List ℚ)) :
    Except GameError (List ℚ) :=
  let c := List.replicate g.num_cols (1 : ℚ)
  let b := List.replicate g.num_rows (1 : ℚ)
  match Simplex.new c matrix b with
  | .error e => .error (.solverError e)
  | .ok solver =>
    match solver.solve with
    | .error e => .error (.solverError e)
    | .ok (_, z) => .ok z

/-- Rust `Iterator::max_by` over `0..n` under `f`: on ties the later
element wins, so this returns the index of the last maximum. -/
def maxByLastIdx (f : Nat → ℚ) (n : Nat) : Nat :=
  ((List.range n).foldl (fun acc i =>
    match acc with
    | none => some i
    | some b => if f i < f b then some b else some i) none).getD 0

/-- Row swap of `gaussian_elimination`'s partial pivoting. -/
def swapList {α : Type} (l : List α) (i j : Nat) : List α :=
  match l.get? i, l.get? j with
  | some x, some y => (l.set i y).set j x
  | _, _ => l

/-- Elimination of one row below the pivot in `gaussian_elimination`. -/
def elimBelow (n col : Nat) (st : List (List ℚ) × List ℚ) (row : Nat) :
    List (List ℚ) × List ℚ :=
  let a := st.1
  let b := st.2
  if col < (getRow a row).length ∧ eps12 < |getQ (getRow a col) col| then
    let factor := getQ (getRow a row) col / getQ (getRow a col) col
    let newRow := (List.range (getRow a row).length).map (fun j =>
      if col ≤ j ∧ j < n ∧ j < (getRow a col).length then
        getQ (getRow a row) j - factor * getQ (getRow a col) j
      else getQ (getRow a row) j)
    (a.set row newRow, b.set row (getQ b row - factor * getQ b col))
  else st

/-- One column of forward elimination with partial pivoting
(`gaussian_elimination`, forward phase). -/
def elimColStep (n : Nat) (st : List (List ℚ) × List ℚ) (col : Nat) :
    List (List ℚ) × List ℚ :=
  let a := st.1
  let b := st.2
  let m := a.length
  let init : ℚ × Nat := (if col < a.length then |getQ (getRow a col) col| else 0, col)
  let scan := (List.range' (col+1) (m - (col+1))).foldl (fun mv row =>
    if col < (getRow a row).length ∧ mv.1 < |getQ (getRow a row) col| then
      (|getQ (getRow a row) col|, row) else mv) init
  if scan.1 < eps12 then st
  else
    let a2 := swapList a col scan.2
    let b2 := swapList b col scan.2
    (List.range' (col+1) (m - (col+1))).foldl (elimBelow n col) (a2, b2)

/-- One index of the back-substitution phase of `gaussian_elimination`. -/
def backSubstStep (a : List (List ℚ)) (b : List ℚ) (n : Nat) (x : List ℚ)
    (i : Nat) : List ℚ :=
  if i < a.length ∧ i < (getRow a i).length ∧ eps12 < |getQ (getRow a i) i| then
    let s := (List.range' (i+1) (n - (i+1))).foldl (fun s j =>
      if j < (getRow a i).length then s - getQ (getRow a i) j * getQ x j else s)
      (getQ b i)
    x.set i (s / getQ (getRow a i) i)
  else x

/-- `gaussian_elimination` (game.rs): forward elimination with partial
pivoting at threshold 1e-12, then back substitution. -/
def gaussian_elimination (a0 : List (List ℚ)) (b0 : List ℚ) (n : Nat) :
    Except GameError (List ℚ) :=
  let m := a0.length
  if m = 0 ∨ n = 0 then .error (.solverError .invalidDimensions)
  else
    let fwd := (List.range (min m n)).foldl (elimColStep n) (a0, b0)
    let x := ((List.range (min m n)).reverse).foldl (backSubstStep fwd.1 fwd.2 n)
      (List.replicate n 0)
    .ok x

/-- `GameSolver::solve_indifference_system`: equalize the payoff of the
active columns, add the sum-to-one constraint, solve by Gaussian
elimination, clamp negatives and renormalize. -/
def GameSolver.solve_indifference_system (g : GameSolver) (matrix : List (List ℚ))
    (active_cols : List Nat) (_gv : ℚ) : Except GameError (List ℚ) :=
  let n := g.num_rows
  let m := active_cols.length
  let j0 := active_cols.headD 0
  let diffRows := (List.range' 1 (m - 1)).map (fun k =>
    let jk := active_cols.getD k 0
    (List.range n).map (fun i => getQ (getRow matrix i) j0 - getQ (getRow matrix i) jk))
  let aug := diffRows ++ [List.replicate n (1 : ℚ)]
  let rhs := List.replicate (m - 1) (0 : ℚ) ++ [(1 : ℚ)]
  match gaussian_elimination aug rhs n with
  | .error e => .error e
  | .ok solution =>
    let strategy := solution.map (fun x => max x 0)
    let sum := strategy.foldl (fun acc x => acc + x) 0
    if sum < eps10 then .error (.solverError .infeasible)
    else .ok (strategy.map (fun x => x / sum))

/-- `GameSolver::solve_row_player`: solve the column LP, detect the active
columns, then either a pure best response (one active column) or the
indifference system (several). -/
def GameSolver.solve_row_player (g : GameSolver) (matrix : List (List ℚ)) :
    Except GameError (List ℚ) :=
  match g.solve_col_player_internal matrix with
  | .error e => .error e
  | .ok col_solution =>
    let sum_z := col_solution.foldl (fun acc x => acc + x) 0
    let game_value_shifted := 1 / sum_z
    let active_cols := (col_solution.enum.filter (fun p => eps9 < p.2)).map Prod.fst
    if active_cols.length = 0 then .error (.solverError .infeasible)
    else if active_cols.length = 1 then
      let j := active_cols.headD 0
      let best_row := maxByLastIdx (fun i => getQ (getRow matrix i) j) g.num_rows
      .ok ((List.replicate g.num_rows (0 : ℚ)).set best_row 1)
    else g.solve_indifference_system matrix active_cols game_value_shifted

/-- `GameSolver::solve_col_player`: solve the column LP and normalize the
solution by its sum. -/
def GameSolver.solve_col_player (g : GameSolver) (matrix : List (List ℚ)) :
    Except GameError (List ℚ) :=
  let c := List.replicate g.num_cols (1 : ℚ)
  let b := List.replicate g.num_rows (1 : ℚ)
  match Simplex.new c matrix b with
  | .error e => .error (.solverError e)
  | .ok solver =>
    match solver.solve with
    | .error e => .error (.solverError e)
    | .ok (_, z) =>
      let sum_z := z.foldl (fun acc x => acc + x) 0
      .ok (z.map (fun zj => zj / sum_z))

/-- `GameSolver::calculate_game_value`: minimum over columns of the
expected payoff of the row strategy, on the original matrix; the
`fold(INFINITY, min)` is modelled by `minQ` over Option. -/
def GameSolver.calculate_game_value (g : GameSolver) (row_strategy : List ℚ) :
    Option ℚ :=
  ((List.range g.num_cols).map (fun j =>
    (List.range g.num_rows).foldl (fun s i =>
      s + getQ row_strategy i * getQ (getRow g.payoff_matrix i) j) 0)).foldl minQ none

/-- `GameSolver::solve`: shift, solve both players, compute the game value
on the original matrix. -/
def GameSolver.solve (g : GameSolver) : Except GameError GameSolution :=
  let shift := g.calculate_shift
  let shifted_matrix := g.shift_matrix shift
  match g.solve_row_player shifted_matrix with
  | .error e => .error e
  | .ok row_strategy =>
    match g.solve_col_player shifted_matrix with
    | .error e => .error e
    | .ok col_strategy =>
      .ok ⟨row_strategy, col_strategy, g.calculate_game_value row_strategy⟩

/-- Construct a solver and solve in one step, as the tests of game.rs do. -/
def gameSolve (M : List (List ℚ)) : Except GameError GameSolution :=
  match GameSolver.new M with
  | .error e => .error e
  | .ok g => g.solve

/-- Inner loop of `NashEquilibrium::expected_payoff` over one row;
strategy accesses are Option-valued to model out-of-bounds panics. -/
def epRowInner (p q : List ℚ) (i : Nat) : List ℚ → Nat → ℚ → Option ℚ
  | [], _, acc => some acc
  | v :: vs, j, acc =>
    match p.get? i, q.get? j with
    | some pi, some qj => epRowInner p q i vs (j+1) (acc + pi * qj * v)
    | _, _ => none

/-- Outer loop of `NashEquilibrium::expected_payoff` over the rows. -/
def epRows (p q : List ℚ) : List (List ℚ) → Nat → ℚ → Option ℚ
  | [], _, acc => some acc
  | row :: rest, i, acc =>
    match epRowInner p q i row 0 acc with
    | none => none
    | some acc2 => epRows p q rest (i+1) acc2

/-- `NashEquilibrium::expected_payoff`: bilinear form `Σ p_i q_j a_ij`,
None when an index is out of bounds. -/
def NashEquilibrium.expected_payoff (M : List (List ℚ)) (p q : List ℚ) : Option ℚ :=
  epRows p q M 0 0

/-- The pure strategy `e_i` built by the deviation loops of
`NashEquilibrium::is_epsilon_nash`. -/
def pureStrategyAt (n i : Nat) : List ℚ := (List.replicate n (0 : ℚ)).set i 1

/-- The row-deviation loop of `is_epsilon_nash`, with its early return. -/
def rowDevLoop (M : List (List ℚ)) (q : List ℚ) (cur ε : ℚ) (num_rows : Nat) :
    List Nat → Option Bool
  | [] => some true
  | i :: rest =>
    match NashEquilibrium.expected_payoff M (pureStrategyAt num_rows i) q with
    | none => none
    | some dev => if cur + ε < dev then some false else rowDevLoop M q cur ε num_rows rest

/-- The column-deviation loop of `is_epsilon_nash`, with its early return. -/
def colDevLoop (M : List (List ℚ)) (p : List ℚ) (cur ε : ℚ) (num_cols : Nat) :
    List Nat → Option Bool
  | [] => some true
  | j :: rest =>
    match NashEquilibrium.expected_payoff M p (pureStrategyAt num_cols j) with
    | none => none
    | some dev => if dev < cur - ε then some false else colDevLoop M p cur ε num_cols rest

/-- `NashEquilibrium::is_epsilon_nash`: compute the current payoff, then
check every pure row deviation and every pure column deviation; None
models an out-of-bounds panic (the first row is read unconditionally). -/
def NashEquilibrium.is_epsilon_nash (M : List (List ℚ)) (p q : List ℚ) (ε : ℚ) :
    Option Bool :=
  match M.head? with
  | none => none
  | some firstRow =>
    let num_rows := M.length
    let num_cols := firstRow.length
    match NashEquilibrium.expected_payoff M p q with
    | none => none
    | some cur =>
      match rowDevLoop M q cur ε num_rows (List.range num_rows) with
      | none => none
      | some false => some false
      | some true => colDevLoop M p cur ε num_cols (List.range num_cols)

/-! ## Derived notions and helper lemmas -/

/-- The RHS entry of tableau row `i`, at the column index the source uses
(`tableau[0].len() - 1`). -/
def rhsEntry (s : Simplex) (i : Nat) : ℚ :=
  getQ (getRow s.tableau i) ((getRow s.tableau 0).length - 1)

/-- The ratio `RHS / pivot-column entry` of row `i`. -/
def rowRatio (s : Simplex) (pivot_col i : Nat) : ℚ :=
  rhsEntry s i / getQ (getRow s.tableau i) pivot_col

/-- A constraint row eligible for the leaving-row choice: pivot-column
entry above 1e-10 and non-negative ratio. -/
def qualifiesRow (s : Simplex) (pivot_col i : Nat) : Prop :=
  eps10 < getQ (getRow s.tableau i) pivot_col ∧ 0 ≤ rowRatio s pivot_col i

instance (s : Simplex) (pivot_col i : Nat) : Decidable (qualifiesRow s pivot_col i) :=
  inferInstanceAs (Decidable (_ ∧ _))

/-- `k` successful pivot steps of the solve loop, when they exist. -/
def simplexIter : Nat → Simplex → Option Simplex
  | 0, s => some s
  | k+1, s =>
    match s.find_pivot_column with
    | none => none
    | some pc =>
      match s.find_pivot_row pc with
      | none => none
      | some pr => simplexIter k (s.pivot pr pc)

/-- Invariant of the ratio-test fold of `find_pivot_row`. -/
def fprInv (s : Simplex) (pc m : Nat) : Option (ℚ × Nat) → Prop
  | none => ∀ i < m, ¬ qualifiesRow s pc i
  | some (mr, r) => r < m ∧ qualifiesRow s pc r ∧ mr = rowRatio s pc r ∧
      (∀ i < m, qualifiesRow s pc i → mr ≤ rowRatio s pc i) ∧
      (∀ i < r, qualifiesRow s pc i → mr < rowRatio s pc i)

lemma fprStep_rhs_col (s : Simplex) (pc : Nat) (st : Option (ℚ × Nat)) (i : Nat) :
    fprStep s pc ((getRow s.tableau 0).length - 1) st i =
      let coeff := getQ (getRow s.tableau i) pc
      if eps10 < coeff then
        match st with
        | none => if 0 ≤ rowRatio s pc i then some (rowRatio s pc i, i) else none
        | some (mr, r) =>
          if 0 ≤ rowRatio s pc i ∧ rowRatio s pc i < mr then some (rowRatio s pc i, i)
          else some (mr, r)
      else st := rfl

lemma fprInv_fold (s : Simplex) (pc : Nat) :
    ∀ m, fprInv s pc m
      ((List.range m).foldl (fprStep s pc ((getRow s.tableau 0).length - 1)) none) := by
  intro m
  induction m with
  | zero => intro i hi; cases hi
  | succ m ih =>
    rw [List.range_succ, List.foldl_append, List.foldl_cons, List.foldl_nil]
    rcases h : (List.range m).foldl (fprStep s pc ((getRow s.tableau 0).length - 1)) none with
      _ | ⟨mr, r⟩
    · rw [h] at ih
      rw [fprStep_rhs_col]
      by_cases hc : eps10 < getQ (getRow s.tableau m) pc
      · simp only [hc, if_true]
        by_cases hr : 0 ≤ rowRatio s pc m
        · simp only [hr, if_true]
          refine ⟨Nat.lt_succ_self m, ⟨hc, hr⟩, rfl, ?_, ?_⟩
          · intro i hi hq
            rcases Nat.lt_succ_iff_lt_or_eq.mp hi with h' | h'
            · exact absurd hq (ih i h')
            · subst h'; exact le_refl _
          · intro i hi hq; exact absurd hq (ih i hi)
        · simp only [hr, if_false]
          intro i hi
          rcases Nat.lt_succ_iff_lt_or_eq.mp hi with h' | h'
          · exact ih i h'
          · subst h'; exact fun hq => hr hq.2
      · simp only [hc, if_false]
        intro i hi
        rcases Nat.lt_succ_iff_lt_or_eq.mp hi with h' | h'
        · exact ih i h'
        · subst h'; exact fun hq => hc hq.1
    · rw [h] at ih
      obtain ⟨hrm, hq, hmr, hmin, hstrict⟩ := ih
      rw [fprStep_rhs_col]
      by_cases hc : eps10 < getQ (getRow s.tableau m) pc
      · simp only [hc, if_true]
        by_cases hcond : 0 ≤ rowRatio s pc m ∧ rowRatio s pc m < mr
        · simp only [hcond, if_true]
          refine ⟨Nat.lt_succ_self m, ⟨hc, hcond.1⟩, rfl, ?_, ?_⟩
          · intro i hi hq'
            rcases Nat.lt_succ_iff_lt_or_eq.mp hi with h' | h'
            · exact le_of_lt (lt_of_lt_of_le hcond.2 (hmin i h' hq'))
            · subst h'; exact le_refl _
          · intro i hi hq'
            exact lt_of_lt_of_le hcond.2 (hmin i hi hq')
        · simp only [hcond, if_false]
          refine ⟨hrm.trans (Nat.lt_succ_self m), hq, hmr, ?_, ?_⟩
          · intro i hi hq'
            rcases Nat.lt_succ_iff_lt_or_eq.mp hi with h' | h'
            · exact hmin i h' hq'
            · subst h'
              rcases not_and_or.mp hcond with h2 | h2
              · exact absurd hq'.2 h2
              · exact le_of_not_lt h2
          · exact hstrict
      · simp only [hc, if_false]
        refine ⟨hrm.trans (Nat.lt_succ_self m), hq, hmr, ?_, hstrict⟩
        intro i hi hq'
        rcases Nat.lt_succ_iff_lt_or_eq.mp hi with h' | h'
        · exact hmin i h' hq'
        · subst h'; exact absurd hq'.1 hc

lemma find_pivot_row_eq (s : Simplex) (pc : Nat) :
    s.find_pivot_row pc = Option.map Prod.snd
      ((List.range s.num_constraints).foldl
        (fprStep s pc ((getRow s.tableau 0).length - 1)) none) := rfl

lemma find_pivot_row_none_iff (s : Simplex) (pc : Nat) :
    s.find_pivot_row pc = none ↔
      ∀ i < s.num_constraints, ¬ qualifiesRow s pc i := by
  have hinv := fprInv_fold s pc s.num_constraints
  rw [find_pivot_row_eq]
  rcases h : (List.range s.num_constraints).foldl
      (fprStep s pc ((getRow s.tableau 0).length - 1)) none with _ | ⟨mr, r⟩
  · rw [h] at hinv
    simpa using hinv
  · rw [h] at hinv
    simp only [Option.map_some']
    constructor
    · intro hcontra; cases hcontra
    · intro hall; exact absurd hinv.2.1 (hall r hinv.1)

lemma find_pivot_row_some_spec (s : Simplex) (pc r : Nat)
    (h : s.find_pivot_row pc = some r) :
    r < s.num_constraints ∧ qualifiesRow s pc r ∧
      (∀ i < s.num_constraints, qualifiesRow s pc i →
        rowRatio s pc r ≤ rowRatio s pc i) ∧
      (∀ i < r, qualifiesRow s pc i → rowRatio s pc r < rowRatio s pc i) := by
  have hinv := fprInv_fold s pc s.num_constraints
  rw [find_pivot_row_eq] at h
  rcases h2 : (List.range s.num_constraints).foldl
      (fprStep s pc ((getRow s.tableau 0).length - 1)) none with _ | ⟨mr, r'⟩
  · rw [h2] at h; cases h
  · rw [h2] at h hinv
    simp only [Option.map_some'] at h
    obtain rfl : r' = r := Option.some_inj.mp h
    obtain ⟨h1, h2, h3, h4, h5⟩ := hinv
    rw [h3] at h4 h5
    exact ⟨h1, h2, h4, h5⟩

lemma solveLoop_succ_nocol (fuel : Nat) (s : Simplex)
    (hcol : s.find_pivot_column = none) :
    Simplex.solveLoop (fuel+1) s = .ok s.extract_solution := by
  rw [Simplex.solveLoop, hcol]

lemma solveLoop_succ_norow (fuel : Nat) (s : Simplex) (pc : Nat)
    (hcol : s.find_pivot_column = some pc) (hrow : s.find_pivot_row pc = none) :
    Simplex.solveLoop (fuel+1) s = .error .unbounded := by
  rw [Simplex.solveLoop, hcol]
  show (match s.find_pivot_row pc with
    | none => Except.error SimplexError.unbounded
    | some pr => Simplex.solveLoop fuel (s.pivot pr pc)) =
      Except.error SimplexError.unbounded
  rw [hrow]

lemma solveLoop_succ_pivot (fuel : Nat) (s : Simplex) (pc pr : Nat)
    (hcol : s.find_pivot_column = some pc) (hrow : s.find_pivot_row pc = some pr) :
    Simplex.solveLoop (fuel+1) s = Simplex.solveLoop fuel (s.pivot pr pc) := by
  rw [Simplex.solveLoop, hcol]
  show (match s.find_pivot_row pc with
    | none => Except.error SimplexError.unbounded
    | some pr => Simplex.solveLoop fuel (s.pivot pr pc)) =
      Simplex.solveLoop fuel (s.pivot pr pc)
  rw [hrow]

lemma simplexIter_succ_nocol (k : Nat) (s : Simplex)
    (hcol : s.find_pivot_column = none) : simplexIter (k+1) s = none := by
  rw [simplexIter, hcol]

lemma simplexIter_succ_norow (k : Nat) (s : Simplex) (pc : Nat)
    (hcol : s.find_pivot_column = some pc) (hrow : s.find_pivot_row pc = none) :
    simplexIter (k+1) s = none := by
  rw [simplexIter, hcol]
  show (match s.find_pivot_row pc with
    | none => none
    | some pr => simplexIter k (s.pivot pr pc)) = none
  rw [hrow]

lemma simplexIter_succ_pivot (k : Nat) (s : Simplex) (pc pr : Nat)
    (hcol : s.find_pivot_column = some pc) (hrow : s.find_pivot_row pc = some pr) :
    simplexIter (k+1) s = simplexIter k (s.pivot pr pc) := by
  rw [simplexIter, hcol]
  show (match s.find_pivot_row pc with
    | none => none
    | some pr => simplexIter k (s.pivot pr pc)) = simplexIter k (s.pivot pr pc)
  rw [hrow]

lemma solveLoop_unbounded_iff (fuel : Nat) (s : Simplex) :
    Simplex.solveLoop fuel s = .error .unbounded ↔
      ∃ k, k < fuel ∧ ∃ t pc, simplexIter k s = some t ∧
        t.find_pivot_column = some pc ∧ t.find_pivot_row pc = none := by
  induction fuel generalizing s with
  | zero =>
    simp only [Simplex.solveLoop]
    constructor
    · intro hcontra; cases hcontra
    · rintro ⟨k, hk, _⟩; cases hk
  | succ fuel ih =>
    rcases hcol : s.find_pivot_column with _ | pc
    · rw [solveLoop_succ_nocol fuel s hcol]
      constructor
      · intro hcontra; cases hcontra
      · rintro ⟨k, hk, t, pc, hit, hc, hr⟩
        rcases k with _ | k
        · cases hit; rw [hcol] at hc; cases hc
        · rw [simplexIter_succ_nocol k s hcol] at hit; cases hit
    · rcases hrow : s.find_pivot_row pc with _ | pr
      · rw [solveLoop_succ_norow fuel s pc hcol hrow]
        constructor
        · intro _
          exact ⟨0, Nat.succ_pos fuel, s, pc, rfl, hcol, hrow⟩
        · intro _; rfl
      · rw [solveLoop_succ_pivot fuel s pc pr hcol hrow, ih]
        constructor
        · rintro ⟨k, hk, t, pc2, hit, hc, hr⟩
          refine ⟨k + 1, Nat.succ_lt_succ hk, t, pc2, ?_, hc, hr⟩
          rw [simplexIter_succ_pivot k s pc pr hcol hrow]; exact hit
        · rintro ⟨k, hk, t, pc2, hit, hc, hr⟩
          rcases k with _ | k
          · cases hit
            rw [hcol] at hc
            obtain rfl : pc = pc2 := Option.some_inj.mp hc
            rw [hrow] at hr; cases hr
          · rw [simplexIter_succ_pivot k s pc pr hcol hrow] at hit
            exact ⟨k, Nat.lt_of_succ_lt_succ hk, t, pc2, hit, hc, hr⟩

lemma getQ_eq_of_lt (l : List ℚ) (i : Nat) (h : i < l.length) :
    getQ l i = l[i] := by
  unfold getQ
  rw [List.getD_eq_getElem?_getD, List.getElem?_eq_getElem h, Option.getD_some]

lemma lt_length_of_getQ_ne (l : List ℚ) (i : Nat) (h : getQ l i ≠ 0) :
    i < l.length := by
  by_contra hle
  exact h (by unfold getQ; rw [List.getD_eq_getElem?_getD,
    List.getElem?_eq_none (Nat.le_of_not_lt hle), Option.getD_none])

lemma getRow_eq_of_lt (t : List (List ℚ)) (i : Nat) (h : i < t.length) :
    getRow t i = t[i] := by
  unfold getRow
  rw [List.getD_eq_getElem?_getD, List.getElem?_eq_getElem h, Option.getD_some]

lemma getRow_mem (t : List (List ℚ)) (i : Nat) (h : i < t.length) :
    getRow t i ∈ t := by
  rw [getRow_eq_of_lt t i h]; exact List.getElem_mem h

lemma getRow_map_range (f : Nat → List ℚ) (n i : Nat) (h : i < n) :
    getRow ((List.range n).map f) i = f i := by
  unfold getRow
  rw [List.getD_eq_getElem?_getD, List.getElem?_map, List.getElem?_range h]
  rfl

lemma getQ_map_div (l : List ℚ) (pv : ℚ) (i : Nat) (h : i < l.length) :
    getQ (l.map (fun x => x / pv)) i = getQ l i / pv := by
  rw [getQ_eq_of_lt _ i (by simpa using h), getQ_eq_of_lt l i h, List.getElem_map]

lemma getQ_zipWith (f : ℚ → ℚ → ℚ) (l1 l2 : List ℚ) (i : Nat)
    (h1 : i < l1.length) (h2 : i < l2.length) :
    getQ (List.zipWith f l1 l2) i = f (getQ l1 i) (getQ l2 i) := by
  rw [getQ_eq_of_lt _ i (by rw [List.length_zipWith]; exact lt_min h1 h2),
    getQ_eq_of_lt l1 i h1, getQ_eq_of_lt l2 i h2, List.getElem_zipWith]

lemma pivot_getRow_self (s : Simplex) (pr pc : Nat) (hpr : pr < s.tableau.length) :
    getRow (s.pivot pr pc).tableau pr =
      (getRow s.tableau pr).map (fun x => x / getQ (getRow s.tableau pr) pc) := by
  show getRow ((List.range s.tableau.length).map _) pr = _
  rw [getRow_map_range _ _ pr hpr]
  simp

lemma pivot_getRow_other (s : Simplex) (pr pc i : Nat) (hi : i < s.tableau.length)
    (hne : i ≠ pr) :
    getRow (s.pivot pr pc).tableau i =
      (getRow s.tableau i).zipWith
        (fun x pj => x - getQ (getRow s.tableau i) pc * pj)
        ((getRow s.tableau pr).map (fun x => x / getQ (getRow s.tableau pr) pc)) := by
  show getRow ((List.range s.tableau.length).map _) i = _
  rw [getRow_map_range _ _ i hi]
  simp [hne]

lemma pivot_row_length (s : Simplex) (pr pc j : Nat)
    (hpr : pr < s.tableau.length) (hj : j < s.tableau.length)
    (hrect : ∀ row ∈ s.tableau, row.length = (getRow s.tableau 0).length) :
    (getRow (s.pivot pr pc).tableau j).length = (getRow s.tableau 0).length := by
  have hlen : ∀ k, k < s.tableau.length →
      (getRow s.tableau k).length = (getRow s.tableau 0).length :=
    fun k hk => hrect _ (getRow_mem _ k hk)
  by_cases hje : j = pr
  · subst hje
    rw [pivot_getRow_self s j pc hpr, List.length_map, hlen j hpr]
  · rw [pivot_getRow_other s pr pc j hj hje, List.length_zipWith, List.length_map,
      hlen j hj, hlen pr hpr, min_self]

lemma maxByLast_fold_spec (f : Nat → ℚ) :
    ∀ n, n ≠ 0 → ∃ b, ((List.range n).foldl (fun acc i =>
      match acc with
      | none => some i
      | some b => if f i < f b then some b else some i) none) = some b ∧
      b < n ∧ (∀ i < n, f i ≤ f b) ∧ (∀ i < n, b < i → f i < f b) := by
  intro n
  induction n with
  | zero => intro h; exact absurd rfl h
  | succ n ih =>
    intro _
    rw [List.range_succ, List.foldl_append, List.foldl_cons, List.foldl_nil]
    rcases Nat.eq_zero_or_pos n with hn | hn
    · subst hn
      refine ⟨0, rfl, Nat.one_pos, ?_, ?_⟩
      · intro i hi
        interval_cases i
        exact le_refl _
      · intro i hi h0i
        omega
    · obtain ⟨b, hb, hbn, hle, hstrict⟩ := ih (Nat.pos_iff_ne_zero.mp hn)
      rw [hb]
      by_cases hcmp : f n < f b
      · refine ⟨b, by simp [hcmp], hbn.trans (Nat.lt_succ_self n), ?_, ?_⟩
        · intro i hi
          rcases Nat.lt_succ_iff_lt_or_eq.mp hi with h' | h'
          · exact hle i h'
          · subst h'; exact le_of_lt hcmp
        · intro i hi hbi
          rcases Nat.lt_succ_iff_lt_or_eq.mp hi with h' | h'
          · exact hstrict i h' hbi
          · subst h'; exact hcmp
      · refine ⟨n, by simp [hcmp], Nat.lt_succ_self n, ?_, ?_⟩
        · intro i hi
          rcases Nat.lt_succ_iff_lt_or_eq.mp hi with h' | h'
          · exact le_trans (hle i h') (not_lt.mp hcmp)
          · subst h'; exact le_refl _
        · intro i hi hni
          omega

lemma maxByLastIdx_spec (f : Nat → ℚ) (n : Nat) (h : 0 < n) :
    maxByLastIdx f n < n ∧ (∀ i < n, f i ≤ f (maxByLastIdx f n)) ∧
      ∀ i < n, maxByLastIdx f n < i → f i < f (maxByLastIdx f n) := by
  obtain ⟨b, hb, h1, h2, h3⟩ := maxByLast_fold_spec f n (Nat.pos_iff_ne_zero.mp h)
  unfold maxByLastIdx
  rw [hb]
  exact ⟨h1, h2, h3⟩

lemma solve_row_player_single_active (g : GameSolver) (matrix : List (List ℚ))
    (z : List ℚ) (j : Nat)
    (hz : g.solve_col_player_internal matrix = .ok z)
    (hact : (z.enum.filter (fun p => eps9 < p.2)).map Prod.fst = [j]) :
    g.solve_row_player matrix = .ok ((List.replicate g.num_rows (0:ℚ)).set
      (maxByLastIdx (fun i => getQ (getRow matrix i) j) g.num_rows) 1) := by
  unfold GameSolver.solve_row_player
  rw [hz]
  show (let active_cols := (z.enum.filter (fun p => eps9 < p.2)).map Prod.fst
    if active_cols.length = 0 then
      Except.error (GameError.solverError SimplexError.infeasible)
    else if active_cols.length = 1 then
      let j := active_cols.headD 0
      let best_row := maxByLastIdx (fun i => getQ (getRow matrix i) j) g.num_rows
      Except.ok ((List.replicate g.num_rows (0:ℚ)).set best_row 1)
    else g.solve_indifference_system matrix
      ((z.enum.filter (fun p => eps9 < p.2)).map Prod.fst)
      (1 / z.foldl (fun acc x => acc + x) 0)) = _
  rw [hact]
  rfl

lemma minQ_isSome (acc : Option ℚ) (x : ℚ) : (minQ acc x).isSome := by
  cases acc <;> rfl

lemma foldl_minQ_eq_none (l : List ℚ) :
    ∀ acc, l.foldl minQ acc = none → acc = none ∧ l = [] := by
  induction l with
  | nil => intro acc h; exact ⟨h, rfl⟩
  | cons x xs ih =>
    intro acc h
    obtain ⟨h1, _⟩ := ih (minQ acc x) h
    have h2 := minQ_isSome acc x
    rw [h1] at h2
    cases h2

lemma foldl_minQ_le (l : List ℚ) :
    ∀ (acc : Option ℚ) (v : ℚ), l.foldl minQ acc = some v →
      (∀ x ∈ l, v ≤ x) ∧ ∀ a, acc = some a → v ≤ a := by
  induction l with
  | nil =>
    intro acc v h
    refine ⟨by simp, fun a ha => ?_⟩
    rw [List.foldl_nil] at h
    rw [ha] at h
    cases h
    exact le_refl _
  | cons x xs ih =>
    intro acc v h
    rw [List.foldl_cons] at h
    obtain ⟨h1, h2⟩ := ih (minQ acc x) v h
    have hx : v ≤ x := by
      cases hacc : acc with
      | none =>
        have := h2 x (by rw [hacc]; rfl)
        exact this
      | some a =>
        have := h2 (min a x) (by rw [hacc]; rfl)
        exact le_trans this (min_le_right a x)
    refine ⟨?_, ?_⟩
    · intro y hy
      rcases List.mem_cons.mp hy with rfl | hy'
      · exact hx
      · exact h1 y hy'
    · intro a ha
      subst ha
      have := h2 (min a x) rfl
      exact le_trans this (min_le_left a x)

lemma foldl_minQ_mem (l : List ℚ) :
    ∀ (acc : Option ℚ) (v : ℚ), l.foldl minQ acc = some v →
      v ∈ l ∨ acc = some v := by
  induction l with
  | nil =>
    intro acc v h
    right
    rw [List.foldl_nil] at h
    exact h
  | cons x xs ih =>
    intro acc v h
    rw [List.foldl_cons] at h
    rcases ih (minQ acc x) v h with hmem | heq
    · exact Or.inl (List.mem_cons_of_mem x hmem)
    · cases hacc : acc with
      | none =>
        rw [hacc] at heq
        left
        cases heq
        exact List.mem_cons_self x xs
      | some a =>
        rw [hacc] at heq
        have heq2 : min a x = v := by
          have : (some (min a x) : Option ℚ) = some v := heq
          exact Option.some_inj.mp this
        rcases min_choice a x with hmc | hmc
        · right; rw [← heq2, hmc]
        · left; rw [← heq2, hmc]; exact List.mem_cons_self x xs

lemma minfold_rows_le (rows : List (List ℚ)) :
    ∀ (acc : Option ℚ) (v : ℚ),
      rows.foldl (fun acc row => row.foldl minQ acc) acc = some v →
      (∀ row ∈ rows, ∀ x ∈ row, v ≤ x) ∧ ∀ a, acc = some a → v ≤ a := by
  induction rows with
  | nil =>
    intro acc v h
    refine ⟨by simp, fun a ha => ?_⟩
    rw [List.foldl_nil] at h
    rw [ha] at h
    cases h
    exact le_refl _
  | cons r rest ih =>
    intro acc v h
    rw [List.foldl_cons] at h
    obtain ⟨h1, h2⟩ := ih (r.foldl minQ acc) v h
    rcases hfold : r.foldl minQ acc with _ | a
    · obtain ⟨hacc, hr⟩ := foldl_minQ_eq_none r acc hfold
      subst hr
      refine ⟨?_, ?_⟩
      · intro row hrow x hx
        rcases List.mem_cons.mp hrow with rfl | hrow'
        · cases hx
        · exact h1 row hrow' x hx
      · intro b hb; rw [hb] at hacc; cases hacc
    · have hva : v ≤ a := h2 a hfold
      obtain ⟨h3, h4⟩ := foldl_minQ_le r acc a hfold
      refine ⟨?_, ?_⟩
      · intro row hrow x hx
        rcases List.mem_cons.mp hrow with rfl | hrow'
        · exact le_trans hva (h3 x hx)
        · exact h1 row hrow' x hx
      · intro b hb
        exact le_trans hva (h4 b hb)

lemma minfold_rows_mem (rows : List (List ℚ)) :
    ∀ (acc : Option ℚ) (v : ℚ),
      rows.foldl (fun acc row => row.foldl minQ acc) acc = some v →
      (∃ row ∈ rows, v ∈ row) ∨ acc = some v := by
  induction rows with
  | nil =>
    intro acc v h
    right
    rw [List.foldl_nil] at h
    exact h
  | cons r rest ih =>
    intro acc v h
    rw [List.foldl_cons] at h
    rcases ih (r.foldl minQ acc) v h with hmem | heq
    · obtain ⟨row, hrow, hv⟩ := hmem
      exact Or.inl ⟨row, List.mem_cons_of_mem r hrow, hv⟩
    · rcases foldl_minQ_mem r acc v heq with hv | hacc
      · exact Or.inl ⟨r, List.mem_cons_self r rest, hv⟩
      · exact Or.inr hacc

lemma new_ok_spec (M : List (List ℚ)) (g : GameSolver)
    (h : GameSolver.new M = .ok g) :
    g.payoff_matrix = M ∧ g.num_rows = M.length ∧
      g.num_cols = (M.headD []).length ∧ 0 < M.length ∧
      0 < (M.headD []).length ∧
      ∀ row ∈ M, row.length = (M.headD []).length := by
  rcases M with _ | ⟨r0, rest⟩
  · cases h
  · by_cases h0 : r0.length = 0
    · simp only [GameSolver.new, h0, if_true] at h
      cases h
    · by_cases hany : (r0 :: rest).any (fun row => row.length ≠ r0.length)
      · simp only [GameSolver.new, h0, if_false, hany, if_true] at h
        cases h
      · simp only [GameSolver.new, h0, if_false, hany, if_false] at h
        cases h
        refine ⟨rfl, rfl, rfl, Nat.succ_pos _, Nat.pos_of_ne_zero h0, ?_⟩
        intro row hrow
        by_contra hne
        exact hany (List.any_eq_true.mpr ⟨row, hrow, decide_eq_true hne⟩)

lemma solve_ok_game_value (g : GameSolver) (sol : GameSolution)
    (h : g.solve = .ok sol) :
    sol.game_value = g.calculate_game_value sol.row_strategy := by
  simp only [GameSolver.solve] at h
  rcases hrow : g.solve_row_player (g.shift_matrix g.calculate_shift) with e | rs
  · rw [hrow] at h; cases h
  · rw [hrow] at h
    rcases hcol : g.solve_col_player (g.shift_matrix g.calculate_shift) with e | cs
    · rw [hcol] at h; cases h
    · rw [hcol] at h
      cases h
      rfl

/-- `Σ_i p_i · a_ij` over every row index of `M`, the expected payoff of
row strategy `p` against pure column `j` (the claim's formula). -/
def dotCol (M : List (List ℚ)) (p : List ℚ) (j : Nat) : ℚ :=
  (List.range M.length).foldl (fun s i => s + getQ p i * getQ (getRow M i) j) 0

lemma minfold_rows_eq_none (rows : List (List ℚ)) :
    ∀ acc, rows.foldl (fun acc row => row.foldl minQ acc) acc = none →
      acc = none ∧ ∀ row ∈ rows, row = [] := by
  induction rows with
  | nil => intro acc h; exact ⟨h, by simp⟩
  | cons r rest ih =>
    intro acc h
    rw [List.foldl_cons] at h
    obtain ⟨h1, h2⟩ := ih (r.foldl minQ acc) h
    obtain ⟨hacc, hr⟩ := foldl_minQ_eq_none r acc h1
    refine ⟨hacc, ?_⟩
    intro row hrow
    rcases List.mem_cons.mp hrow with rfl | hrow'
    · exact hr
    · exact h2 row hrow'

lemma pureStrategyAt_length (n i : Nat) : (pureStrategyAt n i).length = n := by
  simp [pureStrategyAt]

lemma epRowInner_isSome (p q : List ℚ) (i : Nat) :
    ∀ (vs : List ℚ) (j : Nat) (acc : ℚ), i < p.length → j + vs.length ≤ q.length →
      ∃ y, epRowInner p q i vs j acc = some y := by
  intro vs
  induction vs with
  | nil => intro j acc _ _; exact ⟨acc, rfl⟩
  | cons v vs ih =>
    intro j acc hp hq
    have hj : j < q.length := by
      rw [List.length_cons] at hq; omega
    obtain ⟨pi, hpi⟩ : ∃ x, p.get? i = some x :=
      ⟨p.get ⟨i, hp⟩, List.get?_eq_get hp⟩
    obtain ⟨qj, hqj⟩ : ∃ x, q.get? j = some x :=
      ⟨q.get ⟨j, hj⟩, List.get?_eq_get hj⟩
    have step : epRowInner p q i (v :: vs) j acc =
        epRowInner p q i vs (j+1) (acc + pi * qj * v) := by
      rw [epRowInner, hpi, hqj]
    rw [step]
    exact ih (j+1) _ hp (by rw [List.length_cons] at hq; omega)

lemma epRows_isSome (p q : List ℚ) :
    ∀ (rows : List (List ℚ)) (i0 : Nat) (acc : ℚ),
      i0 + rows.length ≤ p.length →
      (∀ row ∈ rows, row.length ≤ q.length) →
      ∃ y, epRows p q rows i0 acc = some y := by
  intro rows
  induction rows with
  | nil => intro i0 acc _ _; exact ⟨acc, rfl⟩
  | cons row rest ih =>
    intro i0 acc hp hq
    have hi0 : i0 < p.length := by
      rw [List.length_cons] at hp; omega
    obtain ⟨acc2, hacc2⟩ := epRowInner_isSome p q i0 row 0 acc hi0
      (by simpa using hq row (List.mem_cons_self row rest))
    have step : epRows p q (row :: rest) i0 acc = epRows p q rest (i0+1) acc2 := by
      rw [epRows, hacc2]
    rw [step]
    exact ih (i0+1) acc2 (by rw [List.length_cons] at hp; omega)
      (fun r hr => hq r (List.mem_cons_of_mem row hr))

lemma rowDevLoop_isSome (M : List (List ℚ)) (q : List ℚ) (cur ε : ℚ)
    (num_rows : Nat) (hM : M.length ≤ num_rows)
    (hq : ∀ row ∈ M, row.length ≤ q.length) :
    ∀ idx : List Nat, ∃ b, rowDevLoop M q cur ε num_rows idx = some b := by
  intro idx
  induction idx with
  | nil => exact ⟨true, rfl⟩
  | cons i rest ih =>
    obtain ⟨dev, hdev⟩ := epRows_isSome (pureStrategyAt num_rows i) q M 0 0
      (by rw [pureStrategyAt_length]; omega) hq
    have hdev2 : NashEquilibrium.expected_payoff M (pureStrategyAt num_rows i) q =
        some dev := hdev
    obtain ⟨b, hb⟩ := ih
    by_cases hcmp : cur + ε < dev
    · refine ⟨false, ?_⟩
      rw [rowDevLoop, hdev2]
      show (if cur + ε < dev then some false
        else rowDevLoop M q cur ε num_rows rest) = some false
      rw [if_pos hcmp]
    · refine ⟨b, ?_⟩
      rw [rowDevLoop, hdev2]
      show (if cur + ε < dev then some false
        else rowDevLoop M q cur ε num_rows rest) = some b
      rw [if_neg hcmp]
      exact hb

lemma colDevLoop_isSome (M : List (List ℚ)) (p : List ℚ) (cur ε : ℚ)
    (num_cols : Nat) (hp : M.length ≤ p.length)
    (hc : ∀ row ∈ M, row.length ≤ num_cols) :
    ∀ idx : List Nat, ∃ b, colDevLoop M p cur ε num_cols idx = some b := by
  intro idx
  induction idx with
  | nil => exact ⟨true, rfl⟩
  | cons j rest ih =>
    obtain ⟨dev, hdev⟩ := epRows_isSome p (pureStrategyAt num_cols j) M 0 0
      (by omega) (by intro r hr; rw [pureStrategyAt_length]; exact hc r hr)
    have hdev2 : NashEquilibrium.expected_payoff M p (pureStrategyAt num_cols j) =
        some dev := hdev
    obtain ⟨b, hb⟩ := ih
    by_cases hcmp : dev < cur - ε
    · refine ⟨false, ?_⟩
      rw [colDevLoop, hdev2]
      show (if dev < cur - ε then some false
        else colDevLoop M p cur ε num_cols rest) = some false
      rw [if_pos hcmp]
    · refine ⟨b, ?_⟩
      rw [colDevLoop, hdev2]
      show (if dev < cur - ε then some false
        else colDevLoop M p cur ε num_cols rest) = some b
      rw [if_neg hcmp]
      exact hb

lemma is_epsilon_nash_cons (r0 : List ℚ) (rest : List (List ℚ)) (p q : List ℚ)
    (ε : ℚ) :
    NashEquilibrium.is_epsilon_nash (r0 :: rest) p q ε =
      match NashEquilibrium.expected_payoff (r0 :: rest) p q with
      | none => none
      | some cur =>
        match rowDevLoop (r0 :: rest) q cur ε (r0 :: rest).length
            (List.range (r0 :: rest).length) with
        | none => none
        | some false => some false
        | some true => colDevLoop (r0 :: rest) p cur ε r0.length
            (List.range r0.length) := rfl

/-! ## Claim theorems -/

/-- Claim C1: for the matching-pennies payoff matrix `[[1,-1],[-1,1]]`,
`GameSolver::solve` succeeds and returns row strategy `[1/2, 1/2]`, column
strategy `[1/2, 1/2]` and game value `0`, each within tolerance `1/100`
(in the exact-rational model the values are exact). -/
theorem C1_matching_pennies :
    ∃ sol, gameSolve [[1, -1], [-1, 1]] = .ok sol ∧
      |getQ sol.row_strategy 0 - 1/2| ≤ 1/100 ∧
      |getQ sol.row_strategy 1 - 1/2| ≤ 1/100 ∧
      |getQ sol.col_strategy 0 - 1/2| ≤ 1/100 ∧
      |getQ sol.col_strategy 1 - 1/2| ≤ 1/100 ∧
      ∃ v, sol.game_value = some v ∧ |v - 0| ≤ 1/100 := by
  refine ⟨⟨[1/2, 1/2], [1/2, 1/2], some 0⟩, by decide!, by decide!, by decide!,
    by decide!, by decide!, 0, by decide!, by decide!⟩

/-- Claim C3 is violated by the code: on the matrix `[[2,1],[0,1]]`,
`GameSolver::solve` succeeds and returns the strategy pair
`([0,1], [0,1])` with game value `0`, and this pair fails
`NashEquilibrium::is_epsilon_nash` at `epsilon = 1/100` against the same
matrix (deviating to column 0 drops the expected payoff from 1 to 0). -/
theorem C3_solution_fails_epsilon_nash :
    gameSolve [[2, 1], [0, 1]] = .ok ⟨[0, 1], [0, 1], some 0⟩ ∧
    NashEquilibrium.is_epsilon_nash [[2, 1], [0, 1]] [0, 1] [0, 1] (1/100) =
      some false := by
  exact ⟨by decide!, by decide!⟩

/-- Claim C4 as stated is false: for the matrix `[[1/2]]` the minimum
entry `1/2` lies strictly between 0 and 1, `GameSolver::calculate_shift`
returns `0`, but `max 0 (1 - min_entry) = 1/2`. -/
theorem C4_counterexample :
    ∃ g, GameSolver.new [[1/2]] = .ok g ∧ g.min_entry = some (1/2) ∧
      (0 : ℚ) < 1/2 ∧ (1/2 : ℚ) < 1 ∧
      g.calculate_shift = 0 ∧ g.calculate_shift ≠ max 0 (1 - 1/2) := by
  exact ⟨⟨[[1/2]], 1, 1⟩, by decide!, by decide!, by decide!, by decide!,
    by decide!, by decide!⟩

/-- Claim C6 as stated is false: on the shifted matrix `[[3,2],[1,2]]` of
the game `[[2,1],[0,1]]` the column LP solution is `[0, 1/2]`, so column 1
is the only active column; rows 0 and 1 tie at payoff `2` against it, and
the code returns the pure strategy on row 1 (the last maximal row), not
`[1, 0]` (the first maximal row) as the claim requires. -/
theorem C6_counterexample :
    ∃ g, GameSolver.new [[2, 1], [0, 1]] = .ok g ∧
      g.shift_matrix g.calculate_shift = [[3, 2], [1, 2]] ∧
      g.solve_col_player_internal [[3, 2], [1, 2]] = .ok [0, 1/2] ∧
      ((([0, 1/2] : List ℚ).enum.filter (fun p => eps9 < p.2)).map Prod.fst = [1]) ∧
      getQ (getRow [[3, 2], [1, 2]] 0) 1 = getQ (getRow [[3, 2], [1, 2]] 1) 1 ∧
      g.solve_row_player [[3, 2], [1, 2]] = .ok [0, 1] ∧
      ([0, 1] : List ℚ) ≠ [1, 0] := by
  exact ⟨⟨[[2, 1], [0, 1]], 2, 2⟩, by decide!, by decide!, by decide!, by decide!,
    by decide!, by decide!, by decide!⟩

/-- Claim C7 as stated is false: for the simplex instance built from
`c = [1]`, `a = [[1]]`, `b = [-1]`, the first iteration picks pivot column
0, constraint row 0 has entry `1 > 1e-10` in that column, yet
`find_pivot_row` finds no row (its `ratio ≥ 0` guard excludes the row) and
`solve` fails with `Unbounded` — contradicting the claim that `Unbounded`
occurs iff no row has a column entry exceeding `1e-10`. -/
theorem C7_counterexample :
    ∃ s, Simplex.new [1] [[1]] [-1] = .ok s ∧
      s.find_pivot_column = some 0 ∧
      0 < s.num_constraints ∧
      eps10 < getQ (getRow s.tableau 0) 0 ∧
      s.find_pivot_row 0 = none ∧
      s.solve = .error .unbounded := by
  exact ⟨⟨[[1, 1, -1], [-1, 0, 0]], 1, 1, 1000⟩, by decide!, by decide!, by decide!,
    by decide!, by decide!, by decide!⟩

/-- Claim C4, amended: the shift applied by `GameSolver::solve` equals
`1 - min_entry` when the minimum entry is non-positive and `0` otherwise
(not `max 0 (1 - min_entry)`), and every entry of the shifted matrix is
strictly positive. -/
theorem C4_amended :
    ∀ (M : List (List ℚ)) (g : GameSolver), GameSolver.new M = .ok g →
      ∃ m, g.min_entry = some m ∧
        g.calculate_shift = (if m ≤ 0 then 1 - m else 0) ∧
        ∀ row ∈ g.shift_matrix g.calculate_shift, ∀ x ∈ row, 0 < x := by
  intro M g hnew
  obtain ⟨hpm, _, hnc, hM, hr0, hrect⟩ := new_ok_spec M g hnew
  rcases hmin : g.min_entry with _ | m
  · exfalso
    obtain ⟨_, hempty⟩ := minfold_rows_eq_none g.payoff_matrix none hmin
    rcases M with _ | ⟨r0, rest⟩
    · cases hM
    · have hr0M : r0 ∈ g.payoff_matrix := by
        rw [hpm]; exact List.mem_cons_self r0 rest
      have := hempty r0 hr0M
      subst this
      simp at hr0
  · obtain ⟨hle, _⟩ := minfold_rows_le g.payoff_matrix none m hmin
    have hshift : g.calculate_shift = (if m ≤ 0 then 1 - m else 0) := by
      simp only [GameSolver.calculate_shift, hmin]
      split_ifs with h
      · ring
      · rfl
    refine ⟨m, rfl, hshift, ?_⟩
    intro row hrow x hx
    simp only [GameSolver.shift_matrix] at hrow
    obtain ⟨row0, hrow0, rfl⟩ := List.mem_map.mp hrow
    obtain ⟨y, hy, rfl⟩ := List.mem_map.mp hx
    have hmy : m ≤ y := hle row0 hrow0 y hy
    rw [hshift]
    split_ifs with h
    · linarith
    · push_neg at h
      linarith

/-- Witness for C4_amended at the matrix `[[-1]]` (shift `2`, shifted
matrix `[[1]]`). -/
theorem C4_witness :
    ∃ m, (⟨[[-1]], 1, 1⟩ : GameSolver).min_entry = some m ∧
      (⟨[[-1]], 1, 1⟩ : GameSolver).calculate_shift = (if m ≤ 0 then 1 - m else 0) ∧
      ∀ row ∈ (⟨[[-1]], 1, 1⟩ : GameSolver).shift_matrix
        (⟨[[-1]], 1, 1⟩ : GameSolver).calculate_shift, ∀ x ∈ row, 0 < x :=
  C4_amended [[-1]] ⟨[[-1]], 1, 1⟩ (by decide!)

/-- Claim C5: for every successful solve, the returned game value is the
minimum over all column indices `j` of `Σ_i p_i · a_ij`, taken over the
original unshifted payoff matrix `a` and the returned row strategy `p`:
it is a lower bound of every column's expected payoff and is attained at
some column. -/
theorem C5_game_value_from_original :
    ∀ (M : List (List ℚ)) (g : GameSolver) (sol : GameSolution),
      GameSolver.new M = .ok g → g.solve = .ok sol →
      ∃ v, sol.game_value = some v ∧
        (∀ j < (M.headD []).length, v ≤ dotCol M sol.row_strategy j) ∧
        ∃ j, j < (M.headD []).length ∧ v = dotCol M sol.row_strategy j := by
  intro M g sol hnew hsolve
  obtain ⟨hpm, hnr, hnc, hM, hr0, _⟩ := new_ok_spec M g hnew
  have hgv := solve_ok_game_value g sol hsolve
  have hcalc : g.calculate_game_value sol.row_strategy =
      ((List.range g.num_cols).map (fun j => dotCol M sol.row_strategy j)).foldl
        minQ none := by
    unfold GameSolver.calculate_game_value dotCol
    rw [hpm, hnr]
  rcases hfold : ((List.range g.num_cols).map
      (fun j => dotCol M sol.row_strategy j)).foldl minQ none with _ | v
  · exfalso
    obtain ⟨_, hempty⟩ := foldl_minQ_eq_none _ _ hfold
    have : g.num_cols = 0 := by
      by_contra hne
      have h0 : 0 ∈ List.range g.num_cols :=
        List.mem_range.mpr (Nat.pos_of_ne_zero hne)
      have : dotCol M sol.row_strategy 0 ∈
          (List.range g.num_cols).map (fun j => dotCol M sol.row_strategy j) :=
        List.mem_map.mpr ⟨0, h0, rfl⟩
      rw [hempty] at this
      cases this
    rw [hnc] at this
    omega
  · obtain ⟨hle, _⟩ := foldl_minQ_le _ _ _ hfold
    rcases foldl_minQ_mem _ _ _ hfold with hmem | hcontra
    · obtain ⟨j, hj, hjv⟩ := List.mem_map.mp hmem
      refine ⟨v, by rw [hgv, hcalc, hfold], ?_, j, ?_, hjv.symm⟩
      · intro j2 hj2
        exact hle _ (List.mem_map.mpr ⟨j2, List.mem_range.mpr (by omega), rfl⟩)
      · rw [← hnc]; exact List.mem_range.mp hj
    · cases hcontra

/-- Witness for C5 at the 1×1 game `[[5]]` (solution `([1],[1],5)`). -/
theorem C5_witness :
    ∃ v, (⟨[1], [1], some 5⟩ : GameSolution).game_value = some v ∧
      (∀ j < ([[(5:ℚ)]].headD []).length, v ≤ dotCol [[(5:ℚ)]] [1] j) ∧
      ∃ j, j < ([[(5:ℚ)]].headD []).length ∧ v = dotCol [[(5:ℚ)]] [1] j :=
  C5_game_value_from_original [[5]] ⟨[[5]], 1, 1⟩ ⟨[1], [1], some 5⟩
    (by decide!) (by decide!)

/-- Claim C6, amended: when exactly one active column `j` exists, the row
strategy is the pure strategy on a row maximizing the payoff against `j`,
with ties among maximal rows broken by LAST occurrence (the
highest-index maximal row), as Rust's `Iterator::max_by` returns the last
of equally maximal elements. -/
theorem C6_amended :
    ∀ (g : GameSolver) (matrix : List (List ℚ)) (z : List ℚ) (j : Nat),
      0 < g.num_rows →
      g.solve_col_player_internal matrix = .ok z →
      (z.enum.filter (fun p => eps9 < p.2)).map Prod.fst = [j] →
      ∃ r, g.solve_row_player matrix =
          .ok ((List.replicate g.num_rows (0:ℚ)).set r 1) ∧
        r < g.num_rows ∧
        (∀ i < g.num_rows, getQ (getRow matrix i) j ≤ getQ (getRow matrix r) j) ∧
        (∀ i < g.num_rows, r < i →
          getQ (getRow matrix i) j < getQ (getRow matrix r) j) := by
  intro g matrix z j hn hz hact
  obtain ⟨h1, h2, h3⟩ :=
    maxByLastIdx_spec (fun i => getQ (getRow matrix i) j) g.num_rows hn
  exact ⟨maxByLastIdx (fun i => getQ (getRow matrix i) j) g.num_rows,
    solve_row_player_single_active g matrix z j hz hact, h1, h2,
    fun i hi hri => h3 i hi hri⟩

/-- Witness for C6_amended at the game `[[2,1],[0,1]]` (shifted matrix
`[[3,2],[1,2]]`, column LP solution `[0, 1/2]`, single active column 1). -/
theorem C6_witness :
    ∃ r, (⟨[[2, 1], [0, 1]], 2, 2⟩ : GameSolver).solve_row_player [[3, 2], [1, 2]] =
        .ok ((List.replicate 2 (0:ℚ)).set r 1) ∧
      r < 2 ∧
      (∀ i < 2, getQ (getRow [[3, 2], [1, 2]] i) 1 ≤ getQ (getRow [[3, 2], [1, 2]] r) 1) ∧
      (∀ i < 2, r < i →
        getQ (getRow [[3, 2], [1, 2]] i) 1 < getQ (getRow [[3, 2], [1, 2]] r) 1) :=
  C6_amended ⟨[[2, 1], [0, 1]], 2, 2⟩ [[3, 2], [1, 2]] [0, 1/2] 1 (by decide!)
    (by decide!) (by decide!)

/-- Claim C7, amended: in every iteration of `Simplex::solve` the leaving
row is selected by the minimum-ratio test over the constraint rows whose
pivot-column entry exceeds 1e-10 AND whose RHS-to-entry ratio is
non-negative; among those rows the one minimizing the ratio wins, ties
broken by first occurrence; and `solve` fails with `Unbounded` iff an
iteration finds no such row. -/
theorem C7_amended :
    (∀ (s : Simplex) (pc : Nat),
      (s.find_pivot_row pc = none ↔ ∀ i < s.num_constraints, ¬ qualifiesRow s pc i)) ∧
    (∀ (s : Simplex) (pc r : Nat), s.find_pivot_row pc = some r →
      r < s.num_constraints ∧ qualifiesRow s pc r ∧
        (∀ i < s.num_constraints, qualifiesRow s pc i →
          rowRatio s pc r ≤ rowRatio s pc i) ∧
        (∀ i < r, qualifiesRow s pc i → rowRatio s pc r < rowRatio s pc i)) ∧
    (∀ s : Simplex, s.solve = .error .unbounded ↔
      ∃ k, k < s.max_iters ∧ ∃ t pc, simplexIter k s = some t ∧
        t.find_pivot_column = some pc ∧ t.find_pivot_row pc = none) :=
  ⟨find_pivot_row_none_iff, find_pivot_row_some_spec,
    fun s => solveLoop_unbounded_iff s.max_iters s⟩

/-- Witness for C7_amended: on `max x, x ≤ 2` the chosen leaving row 0
qualifies; on `max x, x ≤ -1` row 0 does not qualify (negative ratio). -/
theorem C7_witness :
    qualifiesRow ⟨[[1, 1, 2], [-1, 0, 0]], 1, 1, 1000⟩ 0 0 ∧
    ¬ qualifiesRow ⟨[[1, 1, -1], [-1, 0, 0]], 1, 1, 1000⟩ 0 0 :=
  ⟨(C7_amended.2.1 ⟨[[1, 1, 2], [-1, 0, 0]], 1, 1, 1000⟩ 0 0 (by decide!)).2.1,
    (C7_amended.1 ⟨[[1, 1, -1], [-1, 0, 0]], 1, 1, 1000⟩ 0).mp (by decide!) 0
      (by decide!)⟩

/-- Claim C9 as stated is false: `is_epsilon_nash` is defined (returns a
boolean) on the non-rectangular matrix `[[1,2],[3]]` with strategies
`[1,0]`, `[1,0]`, so being rectangular is not necessary for definedness. -/
theorem C9_counterexample :
    NashEquilibrium.is_epsilon_nash [[1, 2], [3]] [1, 0] [1, 0] 0 = some false ∧
    ¬ (∀ row ∈ [[(1 : ℚ), 2], [3]], row.length = ([[(1 : ℚ), 2], [3]].headD []).length) := by
  exact ⟨by decide!, by decide!⟩

/-- Claim C10 as stated is false: for the simplex instance built from
`c = [1]`, `a = [[1e-10],[1]]`, `b = [0, 1]` (a non-negative right-hand
side), `solve` performs the pivot chosen by `find_pivot_column` /
`find_pivot_row` on column 0, row 1, and after that pivot the RHS entry of
constraint row 0 is `-1e-10 < 0`: the minimum-ratio rule does not protect
rows whose pivot-column entry lies in `(0, 1e-10]`. -/
theorem C10_counterexample :
    ∃ s, Simplex.new [1] [[eps10], [1]] [0, 1] = .ok s ∧
      (0 : ℚ) ≤ getQ [0, 1] 0 ∧ (0 : ℚ) ≤ getQ [0, 1] 1 ∧
      s.find_pivot_column = some 0 ∧
      s.find_pivot_row 0 = some 1 ∧
      getQ (getRow (s.pivot 1 0).tableau 0)
        ((getRow (s.pivot 1 0).tableau 0).length - 1) < 0 ∧
      s.solve = .ok (1, [1]) := by
  refine ⟨⟨[[eps10, 1, 0, 0], [1, 0, 1, 1], [-1, 0, 0, 0]], 1, 2, 1000⟩,
    by decide!, by decide!, by decide!, by decide!, by decide!, by decide!, by decide!⟩

/-- Claim C8: `GameSolver::new` returns `EmptyMatrix` exactly for a matrix
with zero rows or whose first row has zero columns, returns
`InconsistentRows` exactly for a non-empty matrix with a non-empty first
row whose rows do not all share the first row's length, and succeeds in
every remaining case — it is a total function into these three outcomes,
never a default solution. -/
theorem C8_new_validation :
    ∀ M : List (List ℚ),
      (GameSolver.new M = .error .emptyMatrix ↔
        M.length = 0 ∨ (M.headD []).length = 0) ∧
      (GameSolver.new M = .error .inconsistentRows ↔
        M.length ≠ 0 ∧ (M.headD []).length ≠ 0 ∧
          ∃ row ∈ M, row.length ≠ (M.headD []).length) ∧
      ((∃ g, GameSolver.new M = .ok g) ↔
        M.length ≠ 0 ∧ (M.headD []).length ≠ 0 ∧
          ∀ row ∈ M, row.length = (M.headD []).length) := by
  intro M
  rcases M with _ | ⟨r0, rest⟩
  · exact ⟨by simp [GameSolver.new], by simp [GameSolver.new],
      by simp [GameSolver.new]⟩
  · by_cases h0 : r0.length = 0
    · have hnew : GameSolver.new (r0 :: rest) = .error .emptyMatrix := by
        simp [GameSolver.new, h0]
      refine ⟨?_, ?_, ?_⟩
      · simp [hnew, h0]
      · simp [hnew, h0]
      · simp [hnew, h0]
    · by_cases hany : (r0 :: rest).any (fun row => row.length ≠ r0.length) = true
      · have hnew : GameSolver.new (r0 :: rest) = .error .inconsistentRows := by
          simp only [GameSolver.new, h0, if_false, hany, if_true]

        obtain ⟨row, hrow, hne⟩ := List.any_eq_true.mp hany
        refine ⟨?_, ?_, ?_⟩
        · simp only [hnew, List.headD_cons]
          constructor
          · intro hcontra; cases hcontra
          · rintro (h | h)
            · simp at h
            · exact absurd h h0
        · simp only [hnew, List.headD_cons]
          constructor
          · intro _
            exact ⟨by simp, h0, row, hrow, of_decide_eq_true hne⟩
          · intro _; trivial
        · simp only [hnew, List.headD_cons]
          constructor
          · rintro ⟨g, hg⟩; cases hg
          · rintro ⟨_, _, hall⟩
            exact absurd (hall row hrow) (of_decide_eq_true hne)
      · have hnew : GameSolver.new (r0 :: rest) =
            .ok ⟨r0 :: rest, (r0 :: rest).length, r0.length⟩ := by
          show (if r0.length = 0 then (Except.error GameError.emptyMatrix :
              Except GameError GameSolver)
            else if (r0 :: rest).any (fun row => row.length ≠ r0.length) then
              Except.error GameError.inconsistentRows
            else Except.ok (⟨r0 :: rest, (r0 :: rest).length, r0.length⟩ :
              GameSolver)) =
            Except.ok (⟨r0 :: rest, (r0 :: rest).length, r0.length⟩ : GameSolver)
          rw [if_neg h0, if_neg hany]
        have hall : ∀ row ∈ r0 :: rest, row.length = r0.length := by
          intro row hrow
          by_contra hne
          exact hany (List.any_eq_true.mpr ⟨row, hrow, decide_eq_true hne⟩)
        refine ⟨?_, ?_, ?_⟩
        · simp only [hnew, List.headD_cons]
          constructor
          · intro hcontra; cases hcontra
          · rintro (h | h)
            · simp at h
            · exact absurd h h0
        · simp only [hnew, List.headD_cons]
          constructor
          · intro hcontra; cases hcontra
          · rintro ⟨_, _, row, hrow, hne⟩
            exact absurd (hall row hrow) hne
        · simp only [hnew, List.headD_cons]
          exact ⟨fun _ => ⟨by simp, h0, hall⟩, fun _ => ⟨_, rfl⟩⟩

/-- Witness for C8 at three concrete matrices: `[]` (empty), `[[1],[2,3]]`
(inconsistent rows), `[[1,2]]` (accepted). -/
theorem C8_witness :
    GameSolver.new ([] : List (List ℚ)) = .error .emptyMatrix ∧
    GameSolver.new [[(1:ℚ)], [2, 3]] = .error .inconsistentRows ∧
    ∃ g, GameSolver.new [[(1:ℚ), 2]] = .ok g :=
  ⟨(C8_new_validation []).1.mpr (Or.inl rfl),
    (C8_new_validation [[(1:ℚ)], [2, 3]]).2.1.mpr
      ⟨by decide!, by decide!, [2, 3], by decide!, by decide!⟩,
    (C8_new_validation [[(1:ℚ), 2]]).2.2.mpr ⟨by decide!, by decide!, by decide!⟩⟩

/-- Claim C9, amended: `is_epsilon_nash` reads the first row of the payoff
matrix unconditionally, so on the empty matrix it fails (None) rather than
returning a boolean; it is defined whenever the matrix is non-empty and
rectangular and the strategy vectors are at least as long as the number of
rows and columns.  (Rectangularity is sufficient, not necessary: see the
counterexample.) -/
theorem C9_amended :
    (∀ (M : List (List ℚ)) (p q : List ℚ) (ε : ℚ),
      M ≠ [] →
      (∀ row ∈ M, row.length = (M.headD []).length) →
      M.length ≤ p.length →
      (M.headD []).length ≤ q.length →
      (NashEquilibrium.is_epsilon_nash M p q ε).isSome = true) ∧
    (∀ (p q : List ℚ) (ε : ℚ),
      NashEquilibrium.is_epsilon_nash [] p q ε = none) := by
  constructor
  · intro M p q ε hne hrect hp hq
    rcases M with _ | ⟨r0, rest⟩
    · exact absurd rfl hne
    · have hhead : ((r0 :: rest).headD []) = r0 := rfl
      rw [hhead] at hrect hq
      have hrow_le_q : ∀ row ∈ r0 :: rest, row.length ≤ q.length :=
        fun row hrow => (hrect row hrow) ▸ hq
      have hrow_le_c : ∀ row ∈ r0 :: rest, row.length ≤ r0.length :=
        fun row hrow => le_of_eq (hrect row hrow)
      obtain ⟨cur, hcur⟩ := epRows_isSome p q (r0 :: rest) 0 0 (by omega) hrow_le_q
      have hcur2 : NashEquilibrium.expected_payoff (r0 :: rest) p q = some cur :=
        hcur
      obtain ⟨b, hrdl⟩ := rowDevLoop_isSome (r0 :: rest) q cur ε
        (r0 :: rest).length (le_refl _) hrow_le_q (List.range (r0 :: rest).length)
      rw [is_epsilon_nash_cons, hcur2]
      show (match rowDevLoop (r0 :: rest) q cur ε (r0 :: rest).length
          (List.range (r0 :: rest).length) with
        | none => none
        | some false => some false
        | some true => colDevLoop (r0 :: rest) p cur ε r0.length
            (List.range r0.length)).isSome = true
      rw [hrdl]
      cases b with
      | false => rfl
      | true =>
        show (colDevLoop (r0 :: rest) p cur ε r0.length
          (List.range r0.length)).isSome = true
        obtain ⟨b2, hcdl⟩ := colDevLoop_isSome (r0 :: rest) p cur ε r0.length
          hp hrow_le_c (List.range r0.length)
        rw [hcdl]
        rfl
  · intro p q ε
    rfl

/-- Witness for C9_amended at the matching-pennies matrix with the
uniform strategies. -/
theorem C9_witness :
    (NashEquilibrium.is_epsilon_nash [[1, -1], [-1, 1]] [1/2, 1/2] [1/2, 1/2]
      (1/100)).isSome = true ∧
    NashEquilibrium.is_epsilon_nash [] [1/2] [1/2] (1/100) = none :=
  ⟨C9_amended.1 [[1, -1], [-1, 1]] [1/2, 1/2] [1/2, 1/2] (1/100) (by decide!)
      (by decide!) (by decide!) (by decide!),
    C9_amended.2 [1/2] [1/2] (1/100)⟩

/-- Claim C10, amended: a pivot chosen by `find_pivot_row` from a
rectangular tableau whose constraint rows all have non-negative RHS keeps
the RHS of every constraint row non-negative, except possibly rows whose
pivot-column entry lies in the window `(0, 1e-10]` — those escape the
minimum-ratio protection (see the counterexample). -/
theorem C10_amended :
    ∀ (s : Simplex) (pc pr : Nat),
      s.find_pivot_row pc = some pr →
      s.num_constraints < s.tableau.length →
      (∀ row ∈ s.tableau, row.length = (getRow s.tableau 0).length) →
      (∀ i < s.num_constraints, 0 ≤ rhsEntry s i) →
      ∀ i < s.num_constraints,
        ¬(0 < getQ (getRow s.tableau i) pc ∧ getQ (getRow s.tableau i) pc ≤ eps10) →
        0 ≤ rhsEntry (s.pivot pr pc) i := by
  intro s pc pr hfpr hmlen hrect hb i hi hwin
  obtain ⟨hprm, ⟨hcpr, hratpr⟩, hmin, _⟩ := find_pivot_row_some_spec s pc pr hfpr
  have heps : (0:ℚ) < eps10 := by norm_num [eps10]
  have hpv : 0 < getQ (getRow s.tableau pr) pc := lt_trans heps hcpr
  have hprt : pr < s.tableau.length := lt_trans hprm hmlen
  have hit : i < s.tableau.length := lt_trans hi hmlen
  have h0t : 0 < s.tableau.length := Nat.lt_of_le_of_lt (Nat.zero_le _) hmlen
  have hlen : ∀ j, j < s.tableau.length →
      (getRow s.tableau j).length = (getRow s.tableau 0).length :=
    fun j hj => hrect _ (getRow_mem _ j hj)
  have hpcL : pc < (getRow s.tableau 0).length := by
    have h2 := lt_length_of_getQ_ne (getRow s.tableau pr) pc (ne_of_gt hpv)
    rwa [hlen pr hprt] at h2
  have hrcL : (getRow s.tableau 0).length - 1 < (getRow s.tableau 0).length :=
    Nat.sub_lt (Nat.lt_of_le_of_lt (Nat.zero_le _) hpcL) Nat.one_pos
  have hrow0 : (getRow (s.pivot pr pc).tableau 0).length =
      (getRow s.tableau 0).length :=
    pivot_row_length s pr pc 0 hprt h0t hrect
  unfold rhsEntry
  rw [hrow0]
  by_cases hie : i = pr
  · subst hie
    rw [pivot_getRow_self s i pc hprt,
      getQ_map_div _ _ _ (by rw [hlen i hprt]; exact hrcL)]
    exact hratpr
  · rw [pivot_getRow_other s pr pc i hit hie,
      getQ_zipWith _ _ _ _ (by rw [hlen i hit]; exact hrcL)
        (by rw [List.length_map, hlen pr hprt]; exact hrcL),
      getQ_map_div _ _ _ (by rw [hlen pr hprt]; exact hrcL)]
    have hbi : 0 ≤ rhsEntry s i := hb i hi
    have hθ : 0 ≤ rhsEntry s pr / getQ (getRow s.tableau pr) pc := hratpr
    unfold rhsEntry at hbi hθ
    rcases le_or_lt (getQ (getRow s.tableau i) pc) 0 with hc0 | hcpos
    · have hmul : getQ (getRow s.tableau i) pc *
          (getQ (getRow s.tableau pr) ((getRow s.tableau 0).length - 1) /
            getQ (getRow s.tableau pr) pc) ≤ 0 :=
        mul_nonpos_iff.mpr (Or.inr ⟨hc0, hθ⟩)
      linarith
    · have hc1 : eps10 < getQ (getRow s.tableau i) pc := by
        rcases not_and_or.mp hwin with h2 | h2
        · exact absurd hcpos h2
        · exact not_le.mp h2
      have hqual : qualifiesRow s pc i :=
        ⟨hc1, div_nonneg hbi (le_of_lt hcpos)⟩
      have hle := hmin i hi hqual
      unfold rowRatio rhsEntry at hle
      rw [le_div_iff₀ hcpos] at hle
      linarith

/-- Witness for C10_amended: on `max x, x ≤ 2` (row 0 is chosen, entry 1)
the RHS of constraint row 0 stays non-negative after the pivot. -/
theorem C10_witness :
    0 ≤ rhsEntry ((⟨[[1, 1, 2], [-1, 0, 0]], 1, 1, 1000⟩ : Simplex).pivot 0 0) 0 :=
  C10_amended ⟨[[1, 1, 2], [-1, 0, 0]], 1, 1, 1000⟩ 0 0 (by decide!) (by decide!)
    (by decide!) (by decide!) 0 (by decide!) (by decide!)

end FGT
